import Mathlib

/-!
Verification development for the supabase-migrator core:
shallow embeddings of the value encoder, dependency resolver and table
streamer loop of src/lib/data-exporter.ts, and of the migration planner,
idempotency transformer and executor of src/lib/migration-runner.ts,
together with theorems settling the specification claims.
-/

set_option maxRecDepth 100000

namespace SupabaseMigrator

/-! ## Small string utilities

JavaScript strings are modelled as Lean `String` or `List Char`.
`sq` is the single-quote character (code 39), built via `Char.ofNat`.
-/

def sq : Char := Char.ofNat 39

def sqStr : String := String.mk [sq]

/-- Case-sensitive prefix strip: `litStrip p s = some r` iff `s = p ++ r`. -/
def litStrip : List Char → List Char → Option (List Char)
  | [], s => some s
  | _ :: _, [] => none
  | p :: ps, c :: cs => if p = c then litStrip ps cs else none

/-- Embedding of JavaScript `String.prototype.startsWith`. -/
def strStarts (pre s : String) : Bool := (litStrip pre.toList s.toList).isSome

/-- Embedding of JavaScript `String.prototype.endsWith`. -/
def strEnds (suf s : String) : Bool := (litStrip suf.toList.reverse s.toList.reverse).isSome

/-- Embedding of JavaScript `String.prototype.replace(string, string)`:
replaces the FIRST occurrence of `pat` (scanning left to right), if any. -/
def replaceFirstL (pat rep : List Char) : List Char → List Char
  | [] => []
  | c :: rest =>
    match litStrip pat (c :: rest) with
    | some r => rep ++ r
    | none => c :: replaceFirstL pat rep rest

/-- Counts the (possibly overlapping) occurrences of `pat` in `s`,
one per starting position. -/
def countOccs (pat : List Char) : List Char → Nat
  | [] => 0
  | c :: rest => (if (litStrip pat (c :: rest)).isSome then 1 else 0) + countOccs pat rest

/-- Code-point lexicographic order on char lists; this is the order
JavaScript `Array.prototype.sort()` uses on (BMP) strings. -/
def clLe : List Char → List Char → Bool
  | [], _ => true
  | _ :: _, [] => false
  | a :: as, b :: bs => if a = b then clLe as bs else decide (a < b)

/-- Lexicographic order on strings, as used by JavaScript `sort()`. -/
def strLe (a b : String) : Bool := clLe a.toList b.toList

/-- Insert `x` into `l` before the first element `y` with `le x y`. -/
def insertLe (le : α → α → Bool) (x : α) : List α → List α
  | [] => [x]
  | y :: ys => if le x y then x :: y :: ys else y :: insertLe le x ys

/-- Insertion sort with a boolean comparator; models JavaScript
`Array.prototype.sort` (all keys we sort by are distinct, so stability
questions do not arise). -/
def sortBy (le : α → α → Bool) : List α → List α
  | [] => []
  | x :: xs => insertLe le x (sortBy le xs)

/-! ## Value encoder

Embedding of `DataExporter.escapeSQLValue` (src/lib/data-exporter.ts,
lines 207-227).  A runtime JavaScript value is modelled as a closed
variant type; a number carries its `String(v)` rendering, a `Date` its
`toISOString()` rendering, and an object/array its `JSON.stringify(v)`
rendering, since those conversions are performed by the JavaScript
runtime outside the function under study. -/

inductive JSValue where
  | jsNull
  | jsUndefined
  | num (repr : String)
  | boolean (b : Bool)
  | date (iso : String)
  | obj (json : String)
  | str (s : String)
  deriving DecidableEq

/-- Embedding of `String.prototype.replace(/'/g, "''")`: every single
quote is doubled. -/
def doubleQuotes (s : String) : String :=
  String.mk (s.toList.foldr (fun c acc => if c = sq then sq :: sq :: acc else c :: acc) [])

/-- Embedding of `escapeSQLValue` from src/lib/data-exporter.ts:
null/undefined give the NULL keyword; numbers and booleans their textual
form; a Date its ISO string single-quoted; objects/arrays their JSON
serialization single-quoted with quotes doubled; all other values their
string form single-quoted with quotes doubled. -/
def escapeSQLValue : JSValue → String
  | .jsNull => "NULL"
  | .jsUndefined => "NULL"
  | .num r => r
  | .boolean b => if b then "true" else "false"
  | .date iso => sqStr ++ iso ++ sqStr
  | .obj json => sqStr ++ doubleQuotes json ++ sqStr
  | .str s => sqStr ++ doubleQuotes s ++ sqStr

/-- The value-encoder contract as worded in spec section 4.3, for
comparison with the implementation (refinement check): null/absent map
to the SQL NULL keyword; numeric and boolean values to their literal
textual form; date/time values to a single-quoted ISO-8601 literal;
composite values to their single-quoted JSON serialization with embedded
single quotes doubled; all other values to their single-quoted string
form with embedded single quotes doubled. -/
def specEncodeValue : JSValue → String
  | .jsNull => "NULL"
  | .jsUndefined => "NULL"
  | .num r => r
  | .boolean b => if b then "true" else "false"
  | .date iso => sqStr ++ iso ++ sqStr
  | .obj json => sqStr ++ doubleQuotes json ++ sqStr
  | .str s => sqStr ++ doubleQuotes s ++ sqStr

/-! ## Dependency resolver

Embedding of `DataExporter.getTablesInDependencyOrder`
(src/lib/data-exporter.ts, lines 229-301).  The two catalog queries are
modelled by their outcomes: `allTablesQuery` is the result of the
`information_schema.tables` listing (the source orders it by
`table_name`), and `depQuery` the result of the recursive-CTE
dependency-depth query (ordered by ascending depth).  Neither `await` in
the source is guarded by try/catch or `.catch`, so a rejected query
propagates out of the function; this is modelled by `Except`. -/

def mergeTables (orderedTables allTableNames : List String) : List String :=
  allTableNames.foldl (fun acc t => if t ∈ acc then acc else acc ++ [t]) orderedTables

def getTablesInDependencyOrder (allTablesQuery depQuery : Except String (List String)) :
    Except String (List String) :=
  match allTablesQuery with
  | .error e => .error e
  | .ok allTableNames =>
    if allTableNames.isEmpty then .ok []
    else
      match depQuery with
      | .error e => .error e
      | .ok orderedTables => .ok (mergeTables orderedTables allTableNames)

/-! ## Table data streamer loop

Embedding of the batch loop of `DataExporter.exportTableAsSQL`
(src/lib/data-exporter.ts, lines 113-135): `offset` starts at 0 and the
loop issues one batch query per iteration while `offset < totalRows`,
then adds `batchSize`.  `exportLoop` returns the list of offsets at
which batch queries are issued; the fuel argument only bounds the
recursion and `totalRows` iterations always suffice when the batch size
is at least 1. -/

def exportLoop : Nat → Nat → Nat → Nat → List Nat
  | 0, _, _, _ => []
  | fuel + 1, totalRows, batchSize, offset =>
    if offset < totalRows then offset :: exportLoop fuel totalRows batchSize (offset + batchSize)
    else []

def sqlBatchOffsets (totalRows batchSize : Nat) : List Nat :=
  exportLoop totalRows totalRows batchSize 0

/-! ## A backtracking regex engine

`MigrationRunner.makeIdempotent` (src/lib/migration-runner.ts, lines
187-228) rewrites DDL text with three case-insensitive JavaScript
regexes.  The two regexes with structure (the schema one and the trigger
one) are embedded exactly as regex syntax trees and run by a standard
backtracking matcher that returns candidate matches in JavaScript
priority order (greedy quantifiers try the longer alternative first,
alternation tries the left branch first); the head of that list is the
match JavaScript selects.  The fuel argument only bounds recursion depth
and is always chosen large enough. -/

/-- Character class of JavaScript regex `\s` (ASCII part: space, tab,
newline, carriage return, vertical tab, form feed). -/
def jsWS (c : Char) : Bool :=
  c = ' ' || c = '\t' || c = '\n' || c = '\r' || c = Char.ofNat 11 || c = Char.ofNat 12

/-- Character class of JavaScript regex `\w`: ASCII letters, digits and
underscore. -/
def wordChar (c : Char) : Bool := c.isAlpha || c.isDigit || c = '_'

/-- The double-quote character class used by the `"?` pieces. -/
def isDQ (c : Char) : Bool := c = '\"'

/-- Case-insensitive character comparison, as under the regex `i` flag
(ASCII case folding). -/
def ciEqC (a b : Char) : Bool := a.toLower == b.toLower

/-- Case-insensitive prefix strip: `ciStrip p s = some r` iff the first
`p.length` characters of `s` match `p` case-insensitively and `r` is the
rest of `s`. -/
def ciStrip : List Char → List Char → Option (List Char)
  | [], s => some s
  | _ :: _, [] => none
  | p :: ps, c :: cs => if ciEqC p c then ciStrip ps cs else none

/-- Regex abstract syntax: case-insensitive literals, one-character
classes, concatenation, alternation, greedy option, greedy star and
numbered capture groups. -/
inductive Regex where
  | eps
  | lit (s : List Char)
  | one (p : Char → Bool)
  | cat (a b : Regex)
  | alt (a b : Regex)
  | opt (a : Regex)
  | star (a : Regex)
  | group (n : Nat) (a : Regex)

/-- Greedy `+` is `a` followed by `a*`. -/
def rplus (a : Regex) : Regex := .cat a (.star a)

/-- Captured groups of one candidate match: group number paired with the
captured text. -/
abbrev Caps := List (Nat × List Char)

/-- All candidate matches of `re` anchored at the start of `s`, as
(remaining input, captures) pairs in JavaScript backtracking priority
order.  A star iteration must consume input to continue, which is the
JavaScript rule that stops repetition on an empty match. -/
def mat : Nat → Regex → List Char → List (List Char × Caps)
  | 0, _, _ => []
  | _ + 1, .eps, s => [(s, [])]
  | _ + 1, .lit l, s =>
    match ciStrip l s with
    | some r => [(r, [])]
    | none => []
  | _ + 1, .one _, [] => []
  | _ + 1, .one p, c :: r => if p c then [(r, [])] else []
  | fuel + 1, .cat a b, s =>
    (mat fuel a s).flatMap fun rc =>
      (mat fuel b rc.1).map fun rc2 => (rc2.1, rc.2 ++ rc2.2)
  | fuel + 1, .alt a b, s => mat fuel a s ++ mat fuel b s
  | fuel + 1, .opt a, s => mat fuel a s ++ [(s, [])]
  | fuel + 1, .star a, s =>
    ((mat fuel a s).flatMap fun rc =>
      if rc.1.length < s.length then
        (mat fuel (.star a) rc.1).map fun rc2 => (rc2.1, rc.2 ++ rc2.2)
      else []) ++ [(s, [])]
  | fuel + 1, .group n a, s =>
    (mat fuel a s).map fun rc => (rc.1, (n, s.take (s.length - rc.1.length)) :: rc.2)

/-- Text captured by group `n`, or empty when absent (as a JavaScript
`$n` substitution with a non-participating group would give). -/
def capOr (caps : Caps) (n : Nat) : List Char :=
  ((caps.find? fun p => p.1 == n).map (·.2)).getD []

/-- Embedding of `String.prototype.replace(regex-with-g-flag, repl)`:
scan left to right; at each position take the highest-priority anchored
match if there is one, emit the replacement and continue after the
match, otherwise emit the character and move one position.  The fuel is
set to the input length by `replaceGlobal`, which suffices because every
step consumes at least one character. -/
def replaceG (re : Regex) (repl : Caps → List Char → List Char) : Nat → List Char → List Char
  | 0, s => s
  | _ + 1, [] => []
  | fuel + 1, c :: rest =>
    match (mat (100 * (rest.length + 11)) re (c :: rest)).head? with
    | some rc =>
      if rc.1.length < rest.length + 1 then
        repl rc.2 ((c :: rest).take (rest.length + 1 - rc.1.length)) ++ replaceG re repl fuel rc.1
      else c :: replaceG re repl fuel rest
    | none => c :: replaceG re repl fuel rest

def replaceGlobal (re : Regex) (repl : Caps → List Char → List Char) (s : List Char) :
    List Char :=
  replaceG re repl s.length s

/-! ## The idempotency transformer

Embedding of `MigrationRunner.makeIdempotent` (src/lib/migration-runner.ts,
lines 187-228). -/

/-- The step categories of `MigrationStep['type']`. -/
inductive StepType where
  | schema
  | functions
  | triggers
  | data
  deriving DecidableEq

/-- The schema-category regex `/CREATE SCHEMA\s+"?(\w+)"?/gi`. -/
def schemaRegex : Regex :=
  .cat (.lit "CREATE SCHEMA".toList)
  (.cat (rplus (.one jsWS))
  (.cat (.opt (.one isDQ))
  (.cat (.group 1 (rplus (.one wordChar)))
        (.opt (.one isDQ)))))

/-- The schema-category replacement string `CREATE SCHEMA IF NOT EXISTS "$1"`. -/
def schemaRepl (caps : Caps) (_m : List Char) : List Char :=
  "CREATE SCHEMA IF NOT EXISTS \"".toList ++ capOr caps 1 ++ ['\"']

/-- The event alternation `(?:INSERT|UPDATE|DELETE|TRUNCATE)`. -/
def trigEvents : Regex :=
  .alt (.lit "INSERT".toList)
    (.alt (.lit "UPDATE".toList) (.alt (.lit "DELETE".toList) (.lit "TRUNCATE".toList)))

/-- The triggers-category regex
`/CREATE TRIGGER\s+"?(\w+)"?\s+(?:BEFORE|AFTER|INSTEAD OF)\s+(?:INSERT|UPDATE|DELETE|TRUNCATE)(?:\s+OR\s+(?:INSERT|UPDATE|DELETE|TRUNCATE))*\s+ON\s+"?(\w+)"?"?(\w+)"?/gi`. -/
def triggerRegex : Regex :=
  .cat (.lit "CREATE TRIGGER".toList)
  (.cat (rplus (.one jsWS))
  (.cat (.opt (.one isDQ))
  (.cat (.group 1 (rplus (.one wordChar)))
  (.cat (.opt (.one isDQ))
  (.cat (rplus (.one jsWS))
  (.cat (.alt (.lit "BEFORE".toList) (.alt (.lit "AFTER".toList) (.lit "INSTEAD OF".toList)))
  (.cat (rplus (.one jsWS))
  (.cat trigEvents
  (.cat (.star (.cat (rplus (.one jsWS)) (.cat (.lit "OR".toList) (.cat (rplus (.one jsWS)) trigEvents))))
  (.cat (rplus (.one jsWS))
  (.cat (.lit "ON".toList)
  (.cat (rplus (.one jsWS))
  (.cat (.opt (.one isDQ))
  (.cat (.group 2 (rplus (.one wordChar)))
  (.cat (.opt (.one isDQ))
  (.cat (.opt (.one isDQ))
  (.cat (.group 3 (rplus (.one wordChar)))
        (.opt (.one isDQ)))))))))))))))))))

/-- The triggers-category replacement function: prepend
`DROP TRIGGER IF EXISTS "<g1>" ON <fullTable>;` to the matched text,
where `fullTable` is `"<g2>"."<g3>"` when group 3 captured text and
`"<g2>"` otherwise (mirroring `table ? ... : ...` in the source). -/
def triggerRepl (caps : Caps) (m : List Char) : List Char :=
  "DROP TRIGGER IF EXISTS \"".toList ++ capOr caps 1 ++ "\" ON ".toList ++
    (if capOr caps 3 ≠ [] then
      ['\"'] ++ capOr caps 2 ++ "\".\"".toList ++ capOr caps 3 ++ ['\"']
    else ['\"'] ++ capOr caps 2 ++ ['\"']) ++
    ";\n".toList ++ m

/-- The functions-category pattern `/CREATE FUNCTION/gi` is a plain
literal, so its replacement is embedded directly as a case-insensitive
literal global replacement (`replaceCF` below). -/
def cfPat : List Char := "CREATE FUNCTION".toList

def cfRep : List Char := "CREATE OR REPLACE FUNCTION".toList

/-- Worker for the functions-category replacement; the fuel is set to
the input length, which suffices since every step consumes at least one
character. -/
def replaceCFAux : Nat → List Char → List Char
  | 0, s => s
  | _ + 1, [] => []
  | fuel + 1, c :: rest =>
    match ciStrip cfPat (c :: rest) with
    | some rest2 => cfRep ++ replaceCFAux fuel rest2
    | none => c :: replaceCFAux fuel rest

/-- Embedding of `sql.replace(/CREATE FUNCTION/gi, 'CREATE OR REPLACE FUNCTION')`. -/
def replaceCF (s : List Char) : List Char := replaceCFAux s.length s

/-- `p` is a case-insensitive prefix of `s`. -/
def ciPref (p s : List Char) : Bool := (ciStrip p s).isSome

/-- The first `min |x| |p|` characters of `x` match the corresponding
characters of `p` case-insensitively. -/
def ciAgree : List Char → List Char → Bool
  | [], _ => true
  | _, [] => true
  | c :: cs, p :: ps => ciEqC p c && ciAgree cs ps

/-- `s` contains a case-insensitive occurrence of `CREATE FUNCTION`. -/
def hasOccCF : List Char → Bool
  | [] => false
  | c :: rest => ciPref cfPat (c :: rest) || hasOccCF rest

/-- Embedding of `MigrationRunner.makeIdempotent`: the category-specific
rewrites of src/lib/migration-runner.ts lines 187-228; the data category
returns the text unchanged. -/
def makeIdempotent (sql : String) (type : StepType) : String :=
  match type with
  | .schema => String.mk (replaceGlobal schemaRegex schemaRepl sql.toList)
  | .functions => String.mk (replaceCF sql.toList)
  | .triggers => String.mk (replaceGlobal triggerRegex triggerRepl sql.toList)
  | .data => sql

/-! ## Migration planner and executor

Embedding of `MigrationRunner.discoverMigrationFiles`, `executeStep` and
`runMigrations` (src/lib/migration-runner.ts, lines 31-185). -/

/-- The `MigrationStep` record of the source. -/
structure MigrationStep where
  name : String
  file : String
  order : Nat
  type : StepType
  deriving DecidableEq

/-- The status field of a `MigrationRunResult`. -/
inductive RunStatus where
  | started
  | succeeded
  | failed
  | skipped
  deriving DecidableEq

/-- The `MigrationRunResult` record of the source (the wall-clock
`duration` field is not modelled). -/
structure MigrationRunResult where
  step : String
  status : RunStatus
  error : Option String
  deriving DecidableEq

/-- Table name extraction of the planner:
`file.replace(schema + '.', '').replace('.sql', '')`, each replacing the
first occurrence. -/
def tableNameOf (schema f : String) : String :=
  String.mk (replaceFirstL ".sql".toList [] (replaceFirstL (schema ++ ".").toList [] f.toList))

/-- The schema step pushed by the planner when `schema-<schema>.sql` exists. -/
def schemaStep (migrationDir schema : String) : MigrationStep :=
  { name := "Schema", file := migrationDir ++ "/schema-" ++ schema ++ ".sql",
    order := 1, type := .schema }

/-- The functions step pushed by the planner when `functions-<schema>.sql` exists. -/
def functionsStep (migrationDir schema : String) : MigrationStep :=
  { name := "Functions", file := migrationDir ++ "/functions-" ++ schema ++ ".sql",
    order := 2, type := .functions }

/-- The triggers step pushed by the planner when `triggers-<schema>.sql` exists. -/
def triggersStep (migrationDir schema : String) : MigrationStep :=
  { name := "Triggers", file := migrationDir ++ "/triggers-" ++ schema ++ ".sql",
    order := 3, type := .triggers }

/-- The data steps pushed by the planner: the `data` directory listing
filtered to names starting with `<schema>.` and ending in `.sql`,
sorted, and numbered from rank 4. -/
def dataSteps (migrationDir schema : String) (dataDirListing : List String) :
    List MigrationStep :=
  (sortBy strLe (dataDirListing.filter fun f =>
      strStarts (schema ++ ".") f && strEnds ".sql" f)).enum.map fun p =>
    { name := "Data: " ++ tableNameOf schema p.2,
      file := migrationDir ++ "/data/" ++ p.2, order := 4 + p.1, type := .data }

/-- Embedding of `discoverMigrationFiles`.  The filesystem probes are
modelled by their outcomes: whether `schema-<schema>.sql`,
`functions-<schema>.sql`, `triggers-<schema>.sql` and the `data`
directory exist, and the `data` directory listing as returned by
`fs.readdirSync`.  Finally the whole list is sorted by rank, as in the
source. -/
def discoverMigrationFiles (migrationDir schema : String)
    (schemaFileExists functionsFileExists triggersFileExists dataDirExists : Bool)
    (dataDirListing : List String) : List MigrationStep :=
  sortBy (fun a b => decide (a.order ≤ b.order))
    ((if schemaFileExists then [schemaStep migrationDir schema] else [])
    ++ (if functionsFileExists then [functionsStep migrationDir schema] else [])
    ++ (if triggersFileExists then [triggersStep migrationDir schema] else [])
    ++ (if dataDirExists then dataSteps migrationDir schema dataDirListing else []))

deriving instance DecidableEq for Except

/-- Per-step environment: the outcome of `fs.readFileSync` on the step's
artifact, and the outcome of `db.query(idempotentSql)` were it to be
issued.  Wall-clock durations and log output are not modelled. -/
structure StepEnv where
  read : Except String String
  exec : Except String Unit
  deriving DecidableEq

/-- Embedding of JavaScript blankness test `!sql.trim()`: every
character is whitespace. -/
def jsBlank (s : String) : Bool := s.toList.all jsWS

/-- Embedding of `executeStep`.  The returned boolean records whether
`db.query` was invoked (a database mutation attempt).  The result record
is created with status `started` and the status is overwritten on every
path, as in the source; a read failure or query failure is caught and
produces a `failed` result carrying the error message. -/
def executeStep (dryRun : Bool) (step : MigrationStep) (env : StepEnv) :
    MigrationRunResult × Bool :=
  let result0 : MigrationRunResult := { step := step.name, status := .started, error := none }
  match env.read with
  | .error e => ({ result0 with status := .failed, error := some e }, false)
  | .ok sql =>
    if jsBlank sql then ({ result0 with status := .skipped }, false)
    else
      let _idempotentSql := makeIdempotent sql step.type
      if dryRun then ({ result0 with status := .succeeded }, false)
      else
        match env.exec with
        | .ok _ => ({ result0 with status := .succeeded }, true)
        | .error e => ({ result0 with status := .failed, error := some e }, true)

/-- The step loop of `runMigrations`: execute steps in order, pushing
each result; after a result with status `failed` in live (non-dry-run)
mode, stop without attempting further steps. -/
def runMigrationsAux (dryRun : Bool) : List (MigrationStep × StepEnv) →
    List (MigrationRunResult × Bool)
  | [] => []
  | p :: rest =>
    let r := executeStep dryRun p.1 p.2
    if r.1.status = .failed ∧ dryRun = false then [r]
    else r :: runMigrationsAux dryRun rest

/-- Embedding of `runMigrations`, parameterized by the discovered steps
paired with their environments; returns the accumulated result list. -/
def runMigrations (dryRun : Bool) (steps : List (MigrationStep × StepEnv)) :
    List MigrationRunResult :=
  (runMigrationsAux dryRun steps).map (·.1)

/-! ## Lemmas about the insertion sort and the string order -/

theorem mem_insertLe {le : α → α → Bool} {x z : α} : ∀ {l : List α},
    z ∈ insertLe le x l → z = x ∨ z ∈ l := by
  intro l
  induction l with
  | nil => intro h; rw [insertLe] at h; simpa using h
  | cons y ys ih =>
    intro h
    rw [insertLe] at h
    by_cases hc : le x y = true
    · rw [if_pos hc] at h
      cases h with
      | head => exact Or.inl rfl
      | tail _ h => exact Or.inr h
    · rw [if_neg hc] at h
      cases h with
      | head => exact Or.inr (List.mem_cons_self _ _)
      | tail _ h =>
        rcases ih h with h | h
        · exact Or.inl h
        · exact Or.inr (List.mem_cons_of_mem y h)

theorem pairwise_insertLe {le : α → α → Bool}
    (htot : ∀ a b, le a b = true ∨ le b a = true)
    (htr : ∀ a b c, le a b = true → le b c = true → le a c = true)
    {x : α} : ∀ {l : List α}, (l.Pairwise fun a b => le a b = true) →
    (insertLe le x l).Pairwise fun a b => le a b = true := by
  intro l
  induction l with
  | nil => intro _; rw [insertLe]; simp
  | cons y ys ih =>
    intro h
    rcases List.pairwise_cons.1 h with ⟨hy, hys⟩
    rw [insertLe]
    by_cases hc : le x y = true
    · rw [if_pos hc]
      refine List.pairwise_cons.2 ⟨?_, h⟩
      intro z hz
      cases hz with
      | head => exact hc
      | tail _ hz => exact htr x y z hc (hy z hz)
    · rw [if_neg hc]
      refine List.pairwise_cons.2 ⟨?_, ih hys⟩
      intro z hz
      rcases mem_insertLe hz with hzx | hz
      · rw [hzx]
        rcases htot x y with h1 | h1
        · exact absurd h1 hc
        · exact h1
      · exact hy z hz

theorem sortBy_pairwise {le : α → α → Bool}
    (htot : ∀ a b, le a b = true ∨ le b a = true)
    (htr : ∀ a b c, le a b = true → le b c = true → le a c = true)
    (l : List α) : (sortBy le l).Pairwise fun a b => le a b = true := by
  induction l with
  | nil => rw [sortBy]; simp
  | cons x xs ih => rw [sortBy]; exact pairwise_insertLe htot htr ih

theorem sortBy_eq_self {le : α → α → Bool} : ∀ {l : List α},
    (l.Pairwise fun a b => le a b = true) → sortBy le l = l := by
  intro l
  induction l with
  | nil => intro _; rfl
  | cons x xs ih =>
    intro h
    rcases List.pairwise_cons.1 h with ⟨hx, hxs⟩
    rw [sortBy, ih hxs]
    cases xs with
    | nil => rfl
    | cons y ys => rw [insertLe, if_pos (hx y (List.mem_cons_self y ys))]

theorem clLe_total : ∀ a b : List Char, clLe a b = true ∨ clLe b a = true := by
  intro a
  induction a with
  | nil => intro b; exact Or.inl rfl
  | cons x xs ih =>
    intro b
    cases b with
    | nil => exact Or.inr rfl
    | cons y ys =>
      by_cases hxy : x = y
      · subst hxy
        rw [clLe, if_pos rfl, clLe, if_pos rfl]
        exact ih ys
      · rw [clLe, if_neg hxy, clLe, if_neg (Ne.symm hxy)]
        rcases lt_trichotomy x y with h | h | h
        · exact Or.inl (decide_eq_true h)
        · exact absurd h hxy
        · exact Or.inr (decide_eq_true h)

theorem clLe_trans : ∀ a b c : List Char, clLe a b = true → clLe b c = true → clLe a c = true := by
  intro a
  induction a with
  | nil => intro b c _ _; rfl
  | cons x xs ih =>
    intro b c h1 h2
    cases b with
    | nil => rw [clLe] at h1; exact absurd h1 (by simp)
    | cons y ys =>
      cases c with
      | nil => rw [clLe] at h2; exact absurd h2 (by simp)
      | cons z zs =>
        rw [clLe] at h1 h2 ⊢
        by_cases hxy : x = y
        · subst hxy
          rw [if_pos rfl] at h1
          by_cases hyz : x = z
          · subst hyz
            rw [if_pos rfl] at h2
            rw [if_pos rfl]
            exact ih ys zs h1 h2
          · rw [if_neg hyz] at h2
            rw [if_neg hyz]
            exact h2
        · rw [if_neg hxy] at h1
          have hlt1 : x < y := of_decide_eq_true h1
          by_cases hyz : y = z
          · subst hyz
            rw [if_neg hxy]
            exact h1
          · rw [if_neg hyz] at h2
            have hlt2 : y < z := of_decide_eq_true h2
            have hlt : x < z := lt_trans hlt1 hlt2
            rw [if_neg (ne_of_lt hlt)]
            exact decide_eq_true hlt

theorem strLe_total : ∀ a b : String, strLe a b = true ∨ strLe b a = true := by
  intro a b
  exact clLe_total a.toList b.toList

theorem strLe_trans : ∀ a b c : String, strLe a b = true → strLe b c = true → strLe a c = true := by
  intro a b c h1 h2
  exact clLe_trans a.toList b.toList c.toList h1 h2

/-! ## Lemmas about the functions-category replacement

The key facts are that the output of `replaceCF` contains no
case-insensitive occurrence of `CREATE FUNCTION` (the replacement text
contains none, no suffix of the replacement text can start one, and no
proper suffix of the pattern can continue into the replacement text),
and that `replaceCF` is the identity on occurrence-free text; together
they give idempotence. -/

theorem ciStrip_length : ∀ (p s r : List Char), ciStrip p s = some r →
    s.length = p.length + r.length := by
  intro p
  induction p with
  | nil =>
    intro s r h
    rw [ciStrip] at h
    cases h
    simp
  | cons x xs ih =>
    intro s r h
    cases s with
    | nil => exact absurd h (by rw [ciStrip]; simp)
    | cons c cs =>
      rw [ciStrip] at h
      by_cases hc : ciEqC x c = true
      · rw [if_pos hc] at h
        have := ih cs r h
        simp only [List.length_cons, this]
        omega
      · rw [if_neg hc] at h
        cases h

theorem ciPref_append_of_le : ∀ (q x y : List Char), q.length ≤ x.length →
    ciPref q (x ++ y) = ciPref q x := by
  intro q
  induction q with
  | nil => intro x y _; rfl
  | cons a qs ih =>
    intro x y hlen
    cases x with
    | nil => simp at hlen
    | cons b xs =>
      rw [List.cons_append, ciPref, ciStrip, ciPref, ciStrip]
      by_cases hc : ciEqC a b = true
      · rw [if_pos hc, if_pos hc]
        exact ih xs y (by simpa using hlen)
      · rw [if_neg hc, if_neg hc]

theorem ciAgree_of_ciPref_append : ∀ (x p y : List Char),
    ciPref p (x ++ y) = true → ciAgree x p = true := by
  intro x
  induction x with
  | nil => intro p y _; cases p <;> rfl
  | cons c cs ih =>
    intro p y h
    cases p with
    | nil => rfl
    | cons a ps =>
      rw [List.cons_append, ciPref, ciStrip] at h
      by_cases hc : ciEqC a c = true
      · rw [if_pos hc] at h
        rw [ciAgree, hc, Bool.true_and]
        exact ih ps y h
      · rw [if_neg hc] at h
        simp at h

theorem cfRep_no_agree : ∀ i, i < 26 → ciAgree (List.drop i cfRep) cfPat = false := by
  decide

theorem cfPat_suffix_no_pref : ∀ i, i < 15 → 1 ≤ i →
    ciPref (List.drop i cfPat) cfRep = false := by
  decide

theorem hasOccCF_append (x y : List Char)
    (hx : ∀ i, i < x.length → ciAgree (List.drop i x) cfPat = false)
    (hy : hasOccCF y = false) : hasOccCF (x ++ y) = false := by
  induction x with
  | nil => simpa using hy
  | cons c cs ih =>
    rw [List.cons_append, hasOccCF]
    rw [Bool.or_eq_false_iff]
    constructor
    · by_contra hpos
      rw [Bool.not_eq_false] at hpos
      have h0 := ciAgree_of_ciPref_append (c :: cs) cfPat y hpos
      have := hx 0 (by simp)
      rw [List.drop_zero] at this
      rw [this] at h0
      cases h0
    · refine ih ?_
      intro i hi
      have := hx (i + 1) (by simpa using Nat.succ_lt_succ hi)
      simpa using this

theorem cfPat_cons : cfPat = 'C' :: List.drop 1 cfPat := by decide

theorem replaceCFAux_tail_pref : ∀ (fuel : Nat) (s : List Char), s.length ≤ fuel →
    ∀ i, i < 15 → 1 ≤ i →
    ciPref (List.drop i cfPat) (replaceCFAux fuel s) = true →
    ciPref (List.drop i cfPat) s = true := by
  intro fuel
  induction fuel with
  | zero =>
    intro s _ i _ _ h
    exact h
  | succ fuel ih =>
    intro s hs i h15 h1 h
    cases s with
    | nil => rw [replaceCFAux] at h; exact h
    | cons c rest =>
      rw [replaceCFAux] at h
      cases hm : ciStrip cfPat (c :: rest) with
      | some rest2 =>
        rw [hm] at h
        dsimp only at h
        have hlen : (List.drop i cfPat).length ≤ cfRep.length := by
          rw [List.length_drop]
          have h1 : cfPat.length = 15 := by decide
          have h2 : cfRep.length = 26 := by decide
          omega
        rw [ciPref_append_of_le _ _ _ hlen] at h
        rw [cfPat_suffix_no_pref i h15 h1] at h
        cases h
      | none =>
        rw [hm] at h
        dsimp only at h
        rcases hdq : List.drop i cfPat with _ | ⟨a, tail⟩
        · exfalso
          have hlen := congrArg List.length hdq
          rw [List.length_drop] at hlen
          have h15p : cfPat.length = 15 := by decide
          simp only [List.length_nil, h15p] at hlen
          omega
        · have htail : tail = List.drop (i + 1) cfPat := by
            have h2 := congrArg (List.drop 1) hdq
            rw [List.drop_drop] at h2
            simpa using h2.symm
          rw [hdq] at h
          rw [ciPref, ciStrip] at h
          by_cases hc : ciEqC a c = true
          · rw [if_pos hc] at h
            rw [ciPref, ciStrip, if_pos hc]
            rw [htail] at h ⊢
            by_cases h14 : i + 1 < 15
            · exact ih rest (by simpa using Nat.le_of_succ_le_succ hs) (i + 1) h14 (by omega) h
            · have hi15 : i + 1 = 15 := by omega
              have hnil : List.drop (i + 1) cfPat = [] := by rw [hi15]; decide
              rw [hnil, ciStrip]
              rfl
          · rw [if_neg hc] at h
            simp at h

theorem replaceCFAux_no_occ : ∀ (fuel : Nat) (s : List Char), s.length ≤ fuel →
    hasOccCF (replaceCFAux fuel s) = false := by
  intro fuel
  induction fuel with
  | zero =>
    intro s hs
    have : s = [] := List.length_eq_zero.1 (by omega)
    rw [this]
    rfl
  | succ fuel ih =>
    intro s hs
    cases s with
    | nil => rfl
    | cons c rest =>
      rw [replaceCFAux]
      cases hm : ciStrip cfPat (c :: rest) with
      | some rest2 =>
        refine hasOccCF_append cfRep (replaceCFAux fuel rest2) ?_ ?_
        · intro i hi
          refine cfRep_no_agree i ?_
          have : cfRep.length = 26 := by decide
          omega
        · refine ih rest2 ?_
          have hl := ciStrip_length cfPat (c :: rest) rest2 hm
          have h15 : cfPat.length = 15 := by decide
          simp only [List.length_cons] at hl hs
          omega
      | none =>
        rw [hasOccCF, Bool.or_eq_false_iff]
        constructor
        · by_contra hpos
          rw [Bool.not_eq_false] at hpos
          rw [cfPat_cons, ciPref, ciStrip] at hpos
          by_cases hc : ciEqC 'C' c = true
          · rw [if_pos hc] at hpos
            have hrest := replaceCFAux_tail_pref fuel rest
              (by simpa using Nat.le_of_succ_le_succ hs) 1 (by omega) (by omega) hpos
            have heq : ciStrip cfPat (c :: rest) = ciStrip (List.drop 1 cfPat) rest := by
              conv_lhs => rw [cfPat_cons]
              rw [ciStrip, if_pos hc]
            rw [hm] at heq
            rw [ciPref, ← heq] at hrest
            simp at hrest
          · rw [if_neg hc] at hpos
            simp at hpos
        · exact ih rest (by simpa using Nat.le_of_succ_le_succ hs)

theorem replaceCFAux_of_no_occ : ∀ (fuel : Nat) (s : List Char), s.length ≤ fuel →
    hasOccCF s = false → replaceCFAux fuel s = s := by
  intro fuel
  induction fuel with
  | zero =>
    intro s hs _
    rfl
  | succ fuel ih =>
    intro s hs hocc
    cases s with
    | nil => rfl
    | cons c rest =>
      rw [hasOccCF, Bool.or_eq_false_iff] at hocc
      have hfalse : (ciStrip cfPat (c :: rest)).isSome = false := hocc.1
      have hnone : ciStrip cfPat (c :: rest) = none := by
        cases hx : ciStrip cfPat (c :: rest) with
        | none => rfl
        | some r => rw [hx] at hfalse; simp at hfalse
      rw [replaceCFAux, hnone]
      rw [ih rest (by simpa using Nat.le_of_succ_le_succ hs) hocc.2]

theorem replaceCF_no_occ (s : List Char) : hasOccCF (replaceCF s) = false :=
  replaceCFAux_no_occ s.length s le_rfl

theorem replaceCF_of_no_occ (s : List Char) (h : hasOccCF s = false) : replaceCF s = s :=
  replaceCFAux_of_no_occ s.length s le_rfl h

theorem replaceCF_idem (s : List Char) : replaceCF (replaceCF s) = replaceCF s :=
  replaceCF_of_no_occ (replaceCF s) (replaceCF_no_occ s)

/-! ## Lemmas about the export batch loop -/

theorem exportLoop_eq (B : Nat) (hB : 1 ≤ B) : ∀ (fuel N offset : Nat), N ≤ offset + fuel →
    exportLoop fuel N B offset =
      (List.range ((N - offset + B - 1) / B)).map fun i => offset + i * B := by
  intro fuel
  induction fuel with
  | zero =>
    intro N offset h
    have hd : N - offset = 0 := by omega
    rw [exportLoop, hd]
    have : (0 + B - 1) / B = 0 := Nat.div_eq_of_lt (by omega)
    rw [this]
    rfl
  | succ fuel ih =>
    intro N offset h
    rw [exportLoop]
    by_cases hlt : offset < N
    · rw [if_pos hlt, ih N (offset + B) (by omega)]
      have hcount : (N - offset + B - 1) / B = (N - (offset + B) + B - 1) / B + 1 := by
        by_cases hdb : N - offset ≤ B
        · have h1 : N - (offset + B) = 0 := by omega
          rw [h1]
          have h2 : (0 + B - 1) / B = 0 := Nat.div_eq_of_lt (by omega)
          rw [h2]
          exact Nat.div_eq_of_lt_le (by omega) (by omega)
        · have h1 : N - (offset + B) = N - offset - B := by omega
          have h2 : N - offset - B + B - 1 = N - offset - 1 := by omega
          have h3 : N - offset + B - 1 = N - offset - 1 + B := by omega
          rw [h1, h2, h3, Nat.add_div_right _ (by omega : 0 < B)]
      rw [hcount, List.range_succ_eq_map, List.map_cons, List.map_map]
      have hhead : offset + 0 * B = offset := by omega
      rw [hhead]
      have hfun : ((fun i => offset + i * B) ∘ Nat.succ) = fun i => offset + B + i * B := by
        funext i
        simp only [Function.comp_apply, Nat.succ_eq_add_one]
        ring
      rw [hfun]
    · rw [if_neg hlt]
      have hd : N - offset = 0 := by omega
      rw [hd]
      have : (0 + B - 1) / B = 0 := Nat.div_eq_of_lt (by omega)
      rw [this]
      rfl

theorem sqlBatchOffsets_eq (N B : Nat) (hB : 1 ≤ B) :
    sqlBatchOffsets N B = (List.range ((N + B - 1) / B)).map (· * B) := by
  rw [sqlBatchOffsets, exportLoop_eq B hB N N 0 (by omega)]
  simp

/-! ## Lemmas about the dependency-order merge -/

theorem foldl_merge : ∀ (ts : List String) (acc : List String), ts.Nodup →
    List.foldl (fun acc t => if t ∈ acc then acc else acc ++ [t]) acc ts =
      acc ++ ts.filter fun t => !decide (t ∈ acc) := by
  intro ts
  induction ts with
  | nil => intro acc _; simp
  | cons t ts ih =>
    intro acc hnd
    rcases List.nodup_cons.1 hnd with ⟨ht, hts⟩
    rw [List.foldl_cons]
    by_cases hmem : t ∈ acc
    · rw [if_pos hmem, ih acc hts, List.filter_cons]
      simp [hmem]
    · rw [if_neg hmem, ih (acc ++ [t]) hts, List.filter_cons]
      have hfeq : (ts.filter fun x => !decide (x ∈ acc ++ [t])) =
          ts.filter fun x => !decide (x ∈ acc) := by
        refine List.filter_congr ?_
        intro x hx
        have hxt : x ≠ t := fun hcontra => ht (hcontra ▸ hx)
        simp [List.mem_append, hxt]
      rw [hfeq]
      simp [hmem]

theorem mergeTables_eq (ordered all : List String) (hall : all.Nodup) :
    mergeTables ordered all = ordered ++ all.filter fun t => !decide (t ∈ ordered) := by
  rw [mergeTables, foldl_merge all ordered hall]

/-! ## Lemmas about the migration executor -/

theorem executeStep_dry_no_mut (s : MigrationStep) (e : StepEnv) :
    (executeStep true s e).2 = false := by
  rw [executeStep]
  cases e.read with
  | error msg => rfl
  | ok sql =>
    by_cases hb : jsBlank sql = true
    · simp [hb]
    · simp [hb]

theorem executeStep_not_started (d : Bool) (s : MigrationStep) (e : StepEnv) :
    (executeStep d s e).1.status ≠ RunStatus.started := by
  rw [executeStep]
  cases e.read with
  | error msg => simp
  | ok sql =>
    by_cases hb : jsBlank sql = true
    · simp [hb]
    · cases d with
      | true => simp [hb]
      | false =>
        simp only [hb]
        cases e.exec with
        | ok u => simp
        | error msg => simp

theorem executeStep_blank (d : Bool) (st : MigrationStep) (env : StepEnv) (c : String)
    (h1 : env.read = .ok c) (h2 : jsBlank c = true) :
    executeStep d st env = ({ step := st.name, status := .skipped, error := none }, false) := by
  rw [executeStep, h1]
  simp [h2]

theorem runMigrationsAux_dry : ∀ l, runMigrationsAux true l =
    l.map fun p => executeStep true p.1 p.2 := by
  intro l
  induction l with
  | nil => rfl
  | cons p rest ih =>
    rw [runMigrationsAux, if_neg (by simp), ih, List.map_cons]

theorem runMigrationsAux_live : ∀ l : List (MigrationStep × StepEnv),
    runMigrationsAux false l =
      ((l.map fun p => executeStep false p.1 p.2).takeWhile
        fun r => !(r.1.status == RunStatus.failed))
      ++ ((l.map fun p => executeStep false p.1 p.2).dropWhile
        fun r => !(r.1.status == RunStatus.failed)).take 1 := by
  intro l
  induction l with
  | nil => rfl
  | cons p rest ih =>
    rw [List.map_cons, List.takeWhile_cons, List.dropWhile_cons, runMigrationsAux]
    by_cases hf : (executeStep false p.1 p.2).1.status = RunStatus.failed
    · rw [if_pos ⟨hf, rfl⟩]
      have hpred : (!((executeStep false p.1 p.2).1.status == RunStatus.failed)) = false := by
        simp [hf]
      rw [hpred]
      simp
    · rw [if_neg (by simp [hf])]
      have hpred : (!((executeStep false p.1 p.2).1.status == RunStatus.failed)) = true := by
        simp [hf]
      rw [hpred]
      simp [ih]

theorem runMigrations_not_started (d : Bool) : ∀ (l : List (MigrationStep × StepEnv))
    (r : MigrationRunResult), r ∈ runMigrations d l → r.status ≠ RunStatus.started := by
  intro l
  induction l with
  | nil => intro r hr; simp [runMigrations, runMigrationsAux] at hr
  | cons p rest ih =>
    intro r hr
    rw [runMigrations, runMigrationsAux] at hr
    by_cases hc : (executeStep d p.1 p.2).1.status = RunStatus.failed ∧ d = false
    · rw [if_pos hc] at hr
      simp only [List.map_cons, List.map_nil, List.mem_singleton] at hr
      rw [hr]
      exact executeStep_not_started d p.1 p.2
    · rw [if_neg hc] at hr
      rw [List.map_cons] at hr
      cases hr with
      | head => exact executeStep_not_started d p.1 p.2
      | tail _ hr => exact ih r hr

/-! ## Lemmas about the migration planner -/

theorem enum_pairwise (l : List α) : l.enum.Pairwise fun p q => p.1 < q.1 := by
  have h1 := List.pairwise_lt_range l.length
  rw [← List.enum_map_fst l] at h1
  exact List.pairwise_map.1 h1

theorem pairwise_order_append4 {s1 s2 s3 s4 : List MigrationStep}
    (h1 : ∀ a ∈ s1, a.order = 1) (hp1 : s1.Pairwise fun a b => a.order < b.order)
    (h2 : ∀ a ∈ s2, a.order = 2) (hp2 : s2.Pairwise fun a b => a.order < b.order)
    (h3 : ∀ a ∈ s3, a.order = 3) (hp3 : s3.Pairwise fun a b => a.order < b.order)
    (h4 : ∀ a ∈ s4, 4 ≤ a.order) (hp4 : s4.Pairwise fun a b => a.order < b.order) :
    (s1 ++ s2 ++ s3 ++ s4).Pairwise fun a b => a.order < b.order := by
  rw [List.pairwise_append]
  refine ⟨?_, hp4, ?_⟩
  · rw [List.pairwise_append]
    refine ⟨?_, hp3, ?_⟩
    · rw [List.pairwise_append]
      refine ⟨hp1, hp2, ?_⟩
      intro a ha b hb
      rw [h1 a ha, h2 b hb]
      omega
    · intro a ha b hb
      rw [h3 b hb]
      rcases List.mem_append.1 ha with ha | ha
      · rw [h1 a ha]
        omega
      · rw [h2 a ha]
        omega
  · intro a ha b hb
    have hb4 := h4 b hb
    rcases List.mem_append.1 ha with ha | ha
    · rcases List.mem_append.1 ha with ha | ha
      · rw [h1 a ha]
        omega
      · rw [h2 a ha]
        omega
    · rw [h3 a ha]
      omega

/-! ## Claim theorems -/

/-- C1, counterexample: `makeIdempotent` is not idempotent on the
triggers category.  Applying it twice to
`CREATE TRIGGER audit BEFORE UPDATE ON accounts` injects a second
`DROP TRIGGER IF EXISTS` statement, so the result of two applications
differs from the result of one. -/
theorem claimC1_counterexample :
    makeIdempotent
        (makeIdempotent "CREATE TRIGGER audit BEFORE UPDATE ON accounts" .triggers) .triggers
      ≠ makeIdempotent "CREATE TRIGGER audit BEFORE UPDATE ON accounts" .triggers := by
  decide

/-- C1, amended: the functions-category and data-category transformations
are idempotent, but the schema and triggers categories are not: a second
application rewrites an already-rewritten `CREATE SCHEMA IF NOT EXISTS`
statement (matching its `IF` as a schema name), and injects a second
`DROP TRIGGER IF EXISTS` statement before a `CREATE TRIGGER` (one such
statement after one application, two after two applications). -/
theorem claimC1_amended :
    (∀ s : String, makeIdempotent (makeIdempotent s .functions) .functions
        = makeIdempotent s .functions)
    ∧ (∀ s : String, makeIdempotent (makeIdempotent s .data) .data = makeIdempotent s .data)
    ∧ makeIdempotent (makeIdempotent "CREATE SCHEMA app" .schema) .schema
        ≠ makeIdempotent "CREATE SCHEMA app" .schema
    ∧ countOccs "DROP TRIGGER IF EXISTS".toList
        (makeIdempotent "CREATE TRIGGER trg BEFORE INSERT ON users" .triggers).toList = 1
    ∧ countOccs "DROP TRIGGER IF EXISTS".toList
        (makeIdempotent
          (makeIdempotent "CREATE TRIGGER trg BEFORE INSERT ON users" .triggers)
          .triggers).toList = 2 := by
  refine ⟨?_, fun s => rfl, by decide, by decide, by decide⟩
  intro s
  show String.mk (replaceCF (String.mk (replaceCF s.toList)).toList)
      = String.mk (replaceCF s.toList)
  exact congrArg String.mk (replaceCF_idem s.toList)

/-- C2: in live mode the executor stops at the first failed step: the
result list is the maximal failure-free prefix of the per-step results
followed by the first failed result when there is one, and later steps
contribute nothing; in dry-run mode every step contributes a result and
no step invokes `db.query` (the mutation flag is false for all of them). -/
theorem claimC2_executor_halts (l : List (MigrationStep × StepEnv)) :
    (runMigrationsAux false l =
      ((l.map fun p => executeStep false p.1 p.2).takeWhile
        fun r => !(r.1.status == RunStatus.failed))
      ++ ((l.map fun p => executeStep false p.1 p.2).dropWhile
        fun r => !(r.1.status == RunStatus.failed)).take 1)
    ∧ (runMigrationsAux true l = l.map fun p => executeStep true p.1 p.2)
    ∧ (∀ r ∈ runMigrationsAux true l, r.2 = false) := by
  refine ⟨runMigrationsAux_live l, runMigrationsAux_dry l, ?_⟩
  intro r hr
  rw [runMigrationsAux_dry l] at hr
  rcases List.mem_map.1 hr with ⟨p, _, hpr⟩
  rw [← hpr]
  exact executeStep_dry_no_mut p.1 p.2

/-- C3: the claim is contradicted by the code.  When the recursive-CTE
dependency query fails outright, `getTablesInDependencyOrder` propagates
the error instead of falling back to the alphabetical table listing:
neither `await this.db.query(...)` in the function is guarded.  Here the
table listing succeeds with two tables but the dependency query fails,
and the function returns the error rather than the alphabetical list. -/
theorem claimC3_dep_failure_propagates :
    getTablesInDependencyOrder (.ok ["orders", "users"]) (.error "connection terminated")
      = .error "connection terminated" := by
  decide

/-- C4: whenever the catalog listing is duplicate-free and alphabetically
sorted (the query orders by table name) and the dependency query returns
a duplicate-free sublist of it (it groups by table name and only ever
returns tables of the schema), the resolver output is the dependency
order followed by the remaining tables; it contains every table exactly
once and the appended remainder is alphabetically sorted. -/
theorem claimC4_every_table_once (all ordered : List String)
    (hallnd : all.Nodup) (hordnd : ordered.Nodup)
    (hsub : ∀ t ∈ ordered, t ∈ all)
    (hsorted : all.Pairwise fun a b => strLe a b = true) :
    getTablesInDependencyOrder (.ok all) (.ok ordered)
      = .ok (ordered ++ all.filter fun t => !decide (t ∈ ordered))
    ∧ (ordered ++ all.filter fun t => !decide (t ∈ ordered)).Nodup
    ∧ (∀ t, (t ∈ ordered ++ all.filter fun t => !decide (t ∈ ordered)) ↔ t ∈ all)
    ∧ (all.filter fun t => !decide (t ∈ ordered)).Pairwise fun a b => strLe a b = true := by
  have hdisj : ordered.Disjoint (all.filter fun t => !decide (t ∈ ordered)) := by
    intro a ha haf
    rcases List.mem_filter.1 haf with ⟨_, hdec⟩
    simp at hdec
    exact hdec ha
  refine ⟨?_, List.Nodup.append hordnd (hallnd.filter _) hdisj, ?_, hsorted.filter _⟩
  · rw [getTablesInDependencyOrder]
    by_cases hemp : all.isEmpty = true
    · have hnil : all = [] := List.isEmpty_iff.1 hemp
      have hordnil : ordered = [] := by
        rw [List.eq_nil_iff_forall_not_mem]
        intro t ht
        have := hsub t ht
        rw [hnil] at this
        simp at this
      rw [if_pos hemp, hnil, hordnil]
      rfl
    · rw [if_neg hemp, mergeTables_eq ordered all hallnd]
  · intro t
    constructor
    · intro ht
      rcases List.mem_append.1 ht with ht | ht
      · exact hsub t ht
      · exact (List.mem_filter.1 ht).1
    · intro ht
      by_cases hord : t ∈ ordered
      · exact List.mem_append.2 (Or.inl hord)
      · refine List.mem_append.2 (Or.inr (List.mem_filter.2 ⟨ht, ?_⟩))
        simp [hord]

/-- C4, witness: a three-table schema where the dependency query resolved
`users` and `posts` but missed `comments`; the resolver returns each
table exactly once with `comments` appended. -/
theorem claimC4_witness :
    (getTablesInDependencyOrder (.ok ["comments", "posts", "users"]) (.ok ["users", "posts"])
      = .ok (["users", "posts"]
          ++ ["comments", "posts", "users"].filter fun t => !decide (t ∈ ["users", "posts"])))
    ∧ (["users", "posts"]
        ++ ["comments", "posts", "users"].filter fun t =>
          !decide (t ∈ ["users", "posts"])).Nodup
    ∧ (("comments" ∈ ["users", "posts"]
        ++ ["comments", "posts", "users"].filter fun t => !decide (t ∈ ["users", "posts"]))
        ↔ "comments" ∈ ["comments", "posts", "users"])
    ∧ (["comments", "posts", "users"].filter fun t =>
        !decide (t ∈ ["users", "posts"])).Pairwise fun a b => strLe a b = true := by
  have h := claimC4_every_table_once ["comments", "posts", "users"] ["users", "posts"]
    (by decide) (by decide) (by decide) (by decide)
  exact ⟨h.1, h.2.1, h.2.2.1 "comments", h.2.2.2⟩

/-- C5: the SQL value encoder realises exactly the rules worded in the
spec, and the scenario-4 example holds: the object whose JSON
serialization is `{"a":"it's"}` encodes to `'{"a":"it''s"}'`.  The
further conjuncts are the concrete cases of the repository's own test
suite (tests in the repository): a string with an embedded quote, null
and undefined, a number, the booleans and a date. -/
theorem claimC5_value_encoder :
    (∀ v : JSValue, escapeSQLValue v = specEncodeValue v)
    ∧ escapeSQLValue (.obj ("\x7b\"a\":\"it" ++ sqStr ++ "s\"\x7d"))
        = sqStr ++ "\x7b\"a\":\"it" ++ sqStr ++ sqStr ++ "s\"\x7d" ++ sqStr
    ∧ escapeSQLValue (.str ("It" ++ sqStr ++ "s a test"))
        = sqStr ++ "It" ++ sqStr ++ sqStr ++ "s a test" ++ sqStr
    ∧ escapeSQLValue .jsNull = "NULL"
    ∧ escapeSQLValue .jsUndefined = "NULL"
    ∧ escapeSQLValue (.num "123") = "123"
    ∧ escapeSQLValue (.boolean true) = "true"
    ∧ escapeSQLValue (.boolean false) = "false"
    ∧ escapeSQLValue (.date "2024-01-01T12:00:00.000Z")
        = sqStr ++ "2024-01-01T12:00:00.000Z" ++ sqStr := by
  refine ⟨?_, by decide, by decide, rfl, rfl, rfl, rfl, rfl, rfl⟩
  intro v
  cases v <;> rfl

/-- C6: with batch size at least 1, the export loop issues exactly
`ceil(totalRows / batchSize)` batch queries, at offsets
`0, B, 2B, ...` in strictly increasing order, and terminates. -/
theorem claimC6_batch_count (totalRows batchSize : Nat) (hB : 1 ≤ batchSize) :
    sqlBatchOffsets totalRows batchSize
      = (List.range ((totalRows + batchSize - 1) / batchSize)).map (· * batchSize)
    ∧ (sqlBatchOffsets totalRows batchSize).Pairwise (· < ·) := by
  refine ⟨sqlBatchOffsets_eq totalRows batchSize hB, ?_⟩
  rw [sqlBatchOffsets_eq totalRows batchSize hB]
  refine List.Pairwise.map _ ?_ (List.pairwise_lt_range _)
  intro a b hab
  exact mul_lt_mul_of_pos_right hab (by omega)

/-- C6, witness: 2500 rows at batch size 1000 issue exactly 3 batch
queries, at offsets 0, 1000 and 2000. -/
theorem claimC6_witness :
    (sqlBatchOffsets 2500 1000
        = (List.range ((2500 + 1000 - 1) / 1000)).map (· * 1000)
      ∧ (sqlBatchOffsets 2500 1000).Pairwise (· < ·))
    ∧ sqlBatchOffsets 2500 1000 = [0, 1000, 2000] :=
  ⟨claimC6_batch_count 2500 1000 (by decide), by decide⟩

/-- C7, counterexample: the claim says every `CREATE TRIGGER <name> ... ON
<table>` is preceded by an injected `DROP TRIGGER IF EXISTS` statement,
but for a single-character table name the trigger regex cannot match (it
needs two word characters after `ON` to fill both capture groups), so no
statement is injected at all and the text is returned unchanged. -/
theorem claimC7_counterexample :
    makeIdempotent
        "CREATE TRIGGER t1 BEFORE UPDATE ON x FOR EACH ROW EXECUTE FUNCTION f()" .triggers
      = "CREATE TRIGGER t1 BEFORE UPDATE ON x FOR EACH ROW EXECUTE FUNCTION f()"
    ∧ countOccs "DROP TRIGGER".toList
        (makeIdempotent
          "CREATE TRIGGER t1 BEFORE UPDATE ON x FOR EACH ROW EXECUTE FUNCTION f()"
          .triggers).toList = 0 := by
  exact ⟨by decide, by decide⟩

/-- C7, amended: the transformer rewrites case-insensitively per
category: data is returned unchanged (every input); every `CREATE
FUNCTION` becomes `CREATE OR REPLACE FUNCTION` and no occurrence
survives in the output (every input); `CREATE SCHEMA <name>` becomes
`CREATE SCHEMA IF NOT EXISTS "<name>"` with the name re-quoted and
other text unchanged; in the triggers category the injected `DROP
TRIGGER IF EXISTS` references the `ON` target identifier split into its
all-but-last and last word characters (`ON "post"."s"` for `ON posts`)
rather than the table name, and a `CREATE TRIGGER` whose `ON` target is
a single character receives no injected statement at all. -/
theorem claimC7_amended :
    (∀ s : String, makeIdempotent s .data = s)
    ∧ (∀ s : String, hasOccCF (makeIdempotent s .functions).toList = false)
    ∧ makeIdempotent "create function inc(x int)" .functions
        = "CREATE OR REPLACE FUNCTION inc(x int)"
    ∧ makeIdempotent "CREATE SCHEMA app;\nCREATE TABLE app.users (id int);" .schema
        = "CREATE SCHEMA IF NOT EXISTS \"app\";\nCREATE TABLE app.users (id int);"
    ∧ makeIdempotent "CREATE TRIGGER trg AFTER DELETE ON posts" .triggers
        = "DROP TRIGGER IF EXISTS \"trg\" ON \"post\".\"s\";\nCREATE TRIGGER trg AFTER DELETE ON posts"
    ∧ makeIdempotent "CREATE TRIGGER trg BEFORE INSERT ON u" .triggers
        = "CREATE TRIGGER trg BEFORE INSERT ON u" := by
  refine ⟨fun s => rfl, ?_, by decide, by decide, by decide, by decide⟩
  intro s
  show hasOccCF (String.mk (replaceCF s.toList)).toList = false
  exact replaceCF_no_occ s.toList

/-- C2, witness: three steps where the first succeeds, the second fails
and the third would succeed.  Live mode returns exactly two results;
dry-run mode returns three results, none having invoked `db.query`. -/
theorem claimC2_witness :
    (runMigrationsAux false
        [({ name := "A", file := "a.sql", order := 1, type := StepType.data },
          { read := Except.ok "x", exec := Except.ok () }),
         ({ name := "B", file := "b.sql", order := 2, type := StepType.data },
          { read := Except.ok "y", exec := Except.error "boom" }),
         ({ name := "C", file := "c.sql", order := 3, type := StepType.data },
          { read := Except.ok "z", exec := Except.ok () })] =
      (([({ name := "A", file := "a.sql", order := 1, type := StepType.data },
          { read := Except.ok "x", exec := Except.ok () }),
         ({ name := "B", file := "b.sql", order := 2, type := StepType.data },
          { read := Except.ok "y", exec := Except.error "boom" }),
         ({ name := "C", file := "c.sql", order := 3, type := StepType.data },
          { read := Except.ok "z", exec := Except.ok () })].map
            fun p => executeStep false p.1 p.2).takeWhile
          fun r => !(r.1.status == RunStatus.failed))
      ++ (([({ name := "A", file := "a.sql", order := 1, type := StepType.data },
          { read := Except.ok "x", exec := Except.ok () }),
         ({ name := "B", file := "b.sql", order := 2, type := StepType.data },
          { read := Except.ok "y", exec := Except.error "boom" }),
         ({ name := "C", file := "c.sql", order := 3, type := StepType.data },
          { read := Except.ok "z", exec := Except.ok () })].map
            fun p => executeStep false p.1 p.2).dropWhile
          fun r => !(r.1.status == RunStatus.failed)).take 1)
    ∧ runMigrationsAux false
        [({ name := "A", file := "a.sql", order := 1, type := StepType.data },
          { read := Except.ok "x", exec := Except.ok () }),
         ({ name := "B", file := "b.sql", order := 2, type := StepType.data },
          { read := Except.ok "y", exec := Except.error "boom" }),
         ({ name := "C", file := "c.sql", order := 3, type := StepType.data },
          { read := Except.ok "z", exec := Except.ok () })] =
      [({ step := "A", status := RunStatus.succeeded, error := none }, true),
       ({ step := "B", status := RunStatus.failed, error := some "boom" }, true)]
    ∧ (({ step := "A", status := RunStatus.succeeded, error := none } : MigrationRunResult),
        false).2 = false := by
  refine ⟨(claimC2_executor_halts _).1, by decide, ?_⟩
  exact (claimC2_executor_halts
      [({ name := "A", file := "a.sql", order := 1, type := StepType.data },
        { read := Except.ok "x", exec := Except.ok () }),
       ({ name := "B", file := "b.sql", order := 2, type := StepType.data },
        { read := Except.ok "y", exec := Except.error "boom" }),
       ({ name := "C", file := "c.sql", order := 3, type := StepType.data },
        { read := Except.ok "z", exec := Except.ok () })]).2.2
    ({ step := "A", status := RunStatus.succeeded, error := none }, false) (by decide)

/-- C8, counterexample: a `data/public.users.json` artifact is not
recognized by the planner — the filter keeps only `.sql` names — so the
plan for a directory holding only that artifact is empty, contradicting
the claim that `.json` data artifacts are recognized as steps. -/
theorem claimC8_counterexample :
    discoverMigrationFiles "migrations" "public" false false false true ["public.users.json"]
      = [] := by
  decide

/-- C8, amended: the planner returns the schema artifact at rank 1, the
functions artifact at rank 2, the triggers artifact at rank 3 and the
`.sql` data artifacts at ranks 4.. in lexical filename order (`.json`
files are not recognized); a missing artifact is omitted and an empty
directory yields the empty plan. -/
theorem claimC8_plan_order (migrationDir schema : String) (se fe te de : Bool)
    (listing : List String) :
    discoverMigrationFiles migrationDir schema se fe te de listing
      = (if se then [schemaStep migrationDir schema] else [])
        ++ (if fe then [functionsStep migrationDir schema] else [])
        ++ (if te then [triggersStep migrationDir schema] else [])
        ++ (if de then dataSteps migrationDir schema listing else [])
    ∧ (discoverMigrationFiles migrationDir schema se fe te de listing).Pairwise
        (fun a b => a.order < b.order)
    ∧ (sortBy strLe (listing.filter fun f =>
        strStarts (schema ++ ".") f && strEnds ".sql" f)).Pairwise
        (fun a b => strLe a b = true)
    ∧ discoverMigrationFiles migrationDir schema false false false false listing = [] := by
  have hpw : ((if se then [schemaStep migrationDir schema] else [])
      ++ (if fe then [functionsStep migrationDir schema] else [])
      ++ (if te then [triggersStep migrationDir schema] else [])
      ++ (if de then dataSteps migrationDir schema listing else [])).Pairwise
        (fun a b => a.order < b.order) := by
    refine pairwise_order_append4 ?_ ?_ ?_ ?_ ?_ ?_ ?_ ?_
    · cases se <;> simp [schemaStep]
    · cases se <;> simp
    · cases fe <;> simp [functionsStep]
    · cases fe <;> simp
    · cases te <;> simp [triggersStep]
    · cases te <;> simp
    · cases de with
      | false => simp
      | true =>
        intro a ha
        rw [if_pos rfl] at ha
        rcases List.mem_map.1 ha with ⟨p, _, hpa⟩
        rw [← hpa]
        show 4 ≤ 4 + p.1
        omega
    · cases de with
      | false => simp
      | true =>
        rw [if_pos rfl]
        refine List.Pairwise.map _ ?_ (enum_pairwise _)
        intro p q hpq
        simpa using hpq
  have heq : discoverMigrationFiles migrationDir schema se fe te de listing
      = (if se then [schemaStep migrationDir schema] else [])
        ++ (if fe then [functionsStep migrationDir schema] else [])
        ++ (if te then [triggersStep migrationDir schema] else [])
        ++ (if de then dataSteps migrationDir schema listing else []) := by
    rw [discoverMigrationFiles]
    refine sortBy_eq_self (hpw.imp ?_)
    intro a b hab
    exact decide_eq_true (Nat.le_of_lt hab)
  refine ⟨heq, ?_, sortBy_pairwise strLe_total strLe_trans _, rfl⟩
  rw [heq]
  exact hpw

/-- C9: a step whose artifact content is whitespace-only is marked
skipped (and its result carries no error), `db.query` is never invoked
for it, and in both live and dry-run mode the run continues with the
remaining steps. -/
theorem claimC9_blank_skipped (d : Bool) (st : MigrationStep) (env : StepEnv)
    (rest : List (MigrationStep × StepEnv)) (c : String)
    (h1 : env.read = .ok c) (h2 : jsBlank c = true) :
    executeStep d st env = ({ step := st.name, status := .skipped, error := none }, false)
    ∧ runMigrationsAux d ((st, env) :: rest)
        = ({ step := st.name, status := .skipped, error := none }, false)
          :: runMigrationsAux d rest := by
  have hstep := executeStep_blank d st env c h1 h2
  refine ⟨hstep, ?_⟩
  rw [runMigrationsAux]
  dsimp only
  rw [hstep, if_neg (by simp)]

/-- C9, witness: an empty functions artifact is skipped and the run
continues with the following data step. -/
theorem claimC9_witness :
    executeStep false
        { name := "Functions", file := "migrations/functions-public.sql",
          order := 2, type := StepType.functions }
        { read := Except.ok "  \n", exec := Except.ok () }
      = ({ step := "Functions", status := .skipped, error := none }, false)
    ∧ runMigrationsAux false
        [({ name := "Functions", file := "migrations/functions-public.sql",
            order := 2, type := StepType.functions },
          { read := Except.ok "  \n", exec := Except.ok () }),
         ({ name := "Data: users", file := "migrations/data/public.users.sql",
            order := 4, type := StepType.data },
          { read := Except.ok "INSERT", exec := Except.ok () })]
        = ({ step := "Functions", status := .skipped, error := none }, false)
          :: runMigrationsAux false
            [({ name := "Data: users", file := "migrations/data/public.users.sql",
                order := 4, type := StepType.data },
              { read := Except.ok "INSERT", exec := Except.ok () })] :=
  claimC9_blank_skipped false
    { name := "Functions", file := "migrations/functions-public.sql",
      order := 2, type := StepType.functions }
    { read := Except.ok "  \n", exec := Except.ok () }
    [({ name := "Data: users", file := "migrations/data/public.users.sql",
        order := 4, type := StepType.data },
      { read := Except.ok "INSERT", exec := Except.ok () })]
    "  \n" rfl (by decide)

/-- C10: every result `executeStep` returns has a terminal status — the
initial `started` status is overwritten on the failure, skip, dry-run
and live paths alike — and hence every result `runMigrations` surfaces
is terminal. -/
theorem claimC10_terminal_status (d : Bool) (s : MigrationStep) (e : StepEnv)
    (l : List (MigrationStep × StepEnv)) :
    (executeStep d s e).1.status ≠ RunStatus.started
    ∧ ∀ r ∈ runMigrations d l, r.status ≠ RunStatus.started :=
  ⟨executeStep_not_started d s e, fun r hr => runMigrations_not_started d l r hr⟩

/-- C10, witness: a concrete live step has a terminal status, and the
concrete result surfaced for it by the run loop is not `started`. -/
theorem claimC10_witness :
    (executeStep false
        { name := "Data: users", file := "migrations/data/public.users.sql",
          order := 4, type := StepType.data }
        { read := Except.ok "INSERT", exec := Except.ok () }).1.status ≠ RunStatus.started
    ∧ ({ step := "Data: users", status := RunStatus.succeeded, error := none }
        : MigrationRunResult).status ≠ RunStatus.started :=
  ⟨(claimC10_terminal_status false
      { name := "Data: users", file := "migrations/data/public.users.sql",
        order := 4, type := StepType.data }
      { read := Except.ok "INSERT", exec := Except.ok () } []).1,
   (claimC10_terminal_status false
      { name := "Data: users", file := "migrations/data/public.users.sql",
        order := 4, type := StepType.data }
      { read := Except.ok "INSERT", exec := Except.ok () }
      [({ name := "Data: users", file := "migrations/data/public.users.sql",
          order := 4, type := StepType.data },
        { read := Except.ok "INSERT", exec := Except.ok () })]).2
     { step := "Data: users", status := RunStatus.succeeded, error := none } (by decide)⟩

end SupabaseMigrator
